import Mathlib

/-!
# Verification of the `s3-glob` GlobStream (src/src/glob.js)

A shallow embedding of the ES6 `GlobStream` class.  JavaScript objects that
flow through the code (AWS options, listing requests, query-format outputs)
are modelled as association lists of string keys and `JVal` values with the
lodash operations (`assign`, `pick`, `defaults`, `isEmpty`) translated
directly.  The external glob engine (minimatch) and the `s3-url` parser are
modelled as oracles: a `CompiledGlob` carries the engine's `negate` flag, its
`set` of alternation branches (lists of literal/wildcard segments, as used by
`GlobStream.prefix`), and an opaque `bodyMatch` predicate; `Minimatch.match`
flips `bodyMatch` by `negate`, which is the engine behaviour the code relies
on.  The asynchronous `_read` / `listObjects` protocol is modelled as an
event-driven machine: a `pull` event is a consumer demand signal invoking
`_read`, and a `response` event delivers the callback of the single
outstanding `listObjects` call.
-/

namespace S3Glob

/-- JavaScript values appearing in the option objects handled by the code:
strings, numbers, and `null`. -/
inductive JVal : Type
  | str (s : String)
  | num (n : Int)
  | nul
  deriving DecidableEq, Repr

/-- A JavaScript object, modelled as an association list; `get` returns the
first binding, and the object-building operations below keep keys unique. -/
abbrev JObj : Type := List (String × JVal)

/-- Property lookup: `o[k]`, `none` meaning `undefined` (the first binding
wins; the object-building operations keep keys unique). -/
def JObj.get : JObj → String → Option JVal
  | [], _ => none
  | kv :: rest, k => if kv.1 = k then some kv.2 else JObj.get rest k

/-- `_.assign({}, a, b)`: all keys of `a` and `b`, with `b`'s values winning. -/
def JObj.assign (a b : JObj) : JObj :=
  List.filter (fun kv => (JObj.get b kv.1).isNone) a ++ b

/-- `_.pick(o, ks)`: the sub-object of `o` at the keys in `ks` that exist. -/
def JObj.pick (o : JObj) (ks : List String) : JObj :=
  List.filterMap (fun k => (JObj.get o k).map (fun v => (k, v))) ks

/-- `_.defaults({}, a, b)`: all keys of `a` and `b`, with `a`'s values winning. -/
def JObj.defaults (a b : JObj) : JObj :=
  a ++ List.filter (fun kv => (JObj.get a kv.1).isNone) b

/-- `_.isEmpty(o[k])` on a property: true for `undefined`, `null`, the empty
string, and numbers (lodash's `isEmpty` is true on any number). -/
def isEmptyProp : Option JVal → Bool
  | none => true
  | some JVal.nul => true
  | some (JVal.str s) => s.isEmpty
  | some (JVal.num _) => true

/-- String coercion of a property value, as done by the template literal in
`key` (`undefined` prints as "undefined", `null` as "null"). -/
def propToStr : Option JVal → String
  | none => "undefined"
  | some JVal.nul => "null"
  | some (JVal.str s) => s
  | some (JVal.num n) => toString n

/-- One element of a minimatch `set` branch: a literal path segment (a plain
string in minimatch's representation) or a wildcard/regex part. -/
inductive Segment : Type
  | lit (s : String)
  | wild
  deriving DecidableEq, Repr

/-- `_.isString` on a minimatch set element. -/
def Segment.isString : Segment → Bool
  | Segment.lit _ => true
  | Segment.wild => false

/-- The literal text of a segment (only used on literal segments). -/
def Segment.text : Segment → String
  | Segment.lit s => s
  | Segment.wild => ""

/-- The minimatch compiled-glob object, as the code observes it: the `negate`
flag, the `set` of alternation branches, and the engine's matching of the
pattern body against a key (opaque to this library). -/
structure CompiledGlob : Type where
  negate : Bool
  set : List (List Segment)
  bodyMatch : String → Bool

/-- `Minimatch#match`: the engine matches the pattern body and flips the
result when the pattern was negated (`!...`). -/
def CompiledGlob.mtch (g : CompiledGlob) (key : String) : Bool :=
  xor (g.bodyMatch key) g.negate

/-- `GlobStream.prefix`: join with `/` the leading run of literal (string)
segments of one minimatch set branch. -/
def globPrefix (set : List Segment) : String :=
  String.intercalate "/" (List.map Segment.text (List.takeWhile Segment.isString set))

/-- `GlobStream.prefixes`: one prefix per alternation branch of the glob. -/
def globPrefixes (m : CompiledGlob) : List String :=
  List.map globPrefix m.set

/-- The external engines, injected as oracles: `compile` is the `Minimatch`
constructor, `urlToOptions` is the `s3-url` parser of `s3://bucket/key`
strings into an options object. -/
structure Ctx : Type where
  compile : String → CompiledGlob
  urlToOptions : String → JObj

/-- One element of the caller's glob list: a string pattern, a plain options
object, or any other value (e.g. a number). -/
inductive GlobInput : Type
  | str (s : String)
  | obj (o : JObj)
  | other

/-- The caller's `globs` argument: a bare string/object, an array, or any
other value (`invalid`, e.g. `false` or `5`). -/
inductive GlobsArg : Type
  | single (g : GlobInput)
  | list (gs : List GlobInput)
  | invalid

/-- `GlobStream.formats`. -/
def formats : List String := ["object", "query"]

/-- `GlobStream.allowedOptions`: the whitelist `_.pick`ed from the scope's
options into each `listObjects` request. -/
def allowedOptions : List String := ["Bucket"]

/-- `GlobStream.normalize` (static): wrap a bare string/object into a
one-element list, reject anything that is not an array. -/
def normalize : GlobsArg → Except String (List GlobInput)
  | GlobsArg.single g => Except.ok [g]
  | GlobsArg.list gs => Except.ok gs
  | GlobsArg.invalid => Except.error "TypeError"

/-- The `groupBy` classifier in the constructor
(`_.isString(glob) && glob.charAt(0) === '!'`): a string whose first
character is `!` is a filter, everything else a search pattern. -/
def isFilter : GlobInput → Bool
  | GlobInput.str s =>
    match s.data with
    | c :: _ => c = '!'
    | [] => false
  | _ => false

/-- The raw pattern text handed to `Minimatch` for a filter. -/
def filterText : GlobInput → String
  | GlobInput.str s => s
  | _ => ""

/-- Constructor options (with the source's defaults).  `s3HasListObjects`
models the duck-typing check `s3 && _.isFunction(s3.listObjects)`. -/
structure GlobOptions : Type where
  format : String := "object"
  unique : Bool := true
  s3HasListObjects : Bool := true
  awsOptions : JObj := []

/-- A scan state: one entry of `this.states` (`match` is named `mtch`, Lean
reserves the word; `prefix` is named `pfx`). -/
structure ScanState : Type where
  mtch : CompiledGlob
  awsOptions : JObj
  pfx : String
  marker : Option String

/-- The stream-owned state set up by the constructor plus the `_reading`
re-entrancy flag (initially unset, i.e. false). -/
structure Stream : Type where
  filters : List CompiledGlob
  states : List ScanState
  processed : List String
  unique : Bool
  format : String
  reading : Bool := false

/-- The merge step of the instance method `normalize`:
`_.assign({}, this.awsOptions, _.isString(glob) ? url.urlToOptions(glob) : glob)`. -/
def resolveGlob (ctx : Ctx) (awsOptions : JObj) (g : GlobInput) : JObj :=
  JObj.assign awsOptions
    (match g with
     | GlobInput.str s => ctx.urlToOptions s
     | GlobInput.obj o => o
     | GlobInput.other => [])

/-- The instance method `normalize`: merge `this.awsOptions` under the
pattern's own options (`url.urlToOptions` for strings), then reject an empty
`Key` or `Bucket`. -/
def normalizeGlob (ctx : Ctx) (awsOptions : JObj) (g : GlobInput) :
    Except String JObj :=
  let res := resolveGlob ctx awsOptions g
  if isEmptyProp (JObj.get res "Key") then Except.error "TypeError"
  else if isEmptyProp (JObj.get res "Bucket") then Except.error "TypeError"
  else Except.ok res

/-- The scan states built from the resolved search options: one per prefix
of each option's compiled `Key` glob, each with a null marker. -/
def buildStates (ctx : Ctx) (searchOpts : List JObj) : List ScanState :=
  searchOpts.flatMap (fun o =>
    let m := ctx.compile (propToStr (JObj.get o "Key"))
    List.map (fun p => ScanState.mk m o p none) (globPrefixes m))

/-- The tail of the constructor once the searches have resolved: build the
scan states and reject an empty collection (`Must have at least 1
non-negative glob.`). -/
def mkStreamStates (ctx : Ctx) (opts : GlobOptions)
    (filters : List CompiledGlob) (searchOpts : List JObj) :
    Except String Stream :=
  let states := buildStates ctx searchOpts
  if states.length = 0 then
    Except.error "Must have at least 1 non-negative glob."
  else
    Except.ok { filters := filters, states := states, processed := [],
                unique := opts.unique, format := opts.format,
                reading := false }

/-- The middle of the constructor: split the normalized list into filters
and searches, compile the filters, and resolve each search against the
defaults (a resolution failure propagates, as the thrown `TypeError` would). -/
def mkStreamCore (ctx : Ctx) (opts : GlobOptions) (gs : List GlobInput) :
    Except String Stream :=
  let filters :=
    List.map (fun g => ctx.compile (filterText g)) (List.filter isFilter gs)
  match (List.filter (fun g => !isFilter g) gs).mapM
      (normalizeGlob ctx opts.awsOptions) with
  | Except.error e => Except.error e
  | Except.ok searchOpts => mkStreamStates ctx opts filters searchOpts

/-- The `GlobStream` constructor: duck-type the s3 client, check the format,
then normalize the glob list and hand it to `mkStreamCore`. -/
def mkStream (ctx : Ctx) (globs : GlobsArg) (opts : GlobOptions) :
    Except String Stream :=
  if !opts.s3HasListObjects then Except.error "Bad S3."
  else if !(formats.contains opts.format) then Except.error "TypeError"
  else
    match normalize globs with
    | Except.error e => Except.error e
    | Except.ok gs => mkStreamCore ctx opts gs

/-- A raw listing entry; `Bucket` is absent until the callback copies the
request's `Bucket` onto it. -/
structure Entry : Type where
  Key : String
  Bucket : Option JVal := none
  deriving DecidableEq, Repr

/-- The method `key`: the template literal
`entry.Bucket + "/" + entry.Key` (its `search` argument is unused). -/
def key (e : Entry) : String :=
  propToStr e.Bucket ++ "/" ++ e.Key

/-- The method `hasProcessed`: membership of `key(entry)` in
`this.processed`. -/
def Stream.hasProcessed (st : Stream) (e : Entry) : Bool :=
  st.processed.contains (key e)

/-- The method `match`: every stream filter's minimatch must accept the key
and the scan state's own glob must match it. -/
def Stream.mtch (st : Stream) (search : ScanState) (e : Entry) : Bool :=
  st.filters.all (fun filter => filter.mtch e.Key) && search.mtch.mtch e.Key

/-- One value pushed downstream: a raw entry (`object` format), a query
object (`query` format), or the end-of-stream `push(null)`. -/
inductive Output : Type
  | entry (e : Entry)
  | query (o : JObj)
  | eos
  deriving DecidableEq, Repr

/-- The method `process`: skip an already-processed entry when `unique`,
record the entry's key, and if it matches push it in the configured format
(emitting `UNKNOWN_FORMAT` on the error channel for any other format).
Returns the updated stream plus the pushed outputs and emitted errors. -/
def Stream.process (st : Stream) (search : ScanState) (e : Entry) :
    Stream × List Output × List JVal :=
  if st.unique && st.hasProcessed e then (st, [], [])
  else
    let st' := { st with processed := key e :: st.processed }
    if st'.mtch search e then
      if st'.format = "query" then
        (st', [Output.query (JObj.assign search.awsOptions [("Key", JVal.str e.Key)])], [])
      else if st'.format = "object" then
        (st', [Output.entry e], [])
      else
        (st', [], [JVal.str "UNKNOWN_FORMAT"])
    else (st', [], [])

/-- A successful `listObjects` result as the code reads it. -/
structure ListResult : Type where
  Contents : List Entry
  IsTruncated : Bool
  NextMarker : Option String
  deriving DecidableEq, Repr

/-- The data captured by the in-flight callback closure: the requested
`size` and the request object built for the call. -/
structure Pending : Type where
  size : Int
  request : JObj
  deriving DecidableEq, Repr

/-- The observable machine around one `GlobStream`: its stream state, the
single in-flight call (if any), and the logs of pushes, error emissions and
issued `listObjects` requests.  `pages` counts completed callbacks and
`crashed` records the `TypeError` of reading `.Key` off `_.last([])`. -/
structure Machine : Type where
  stream : Stream
  pending : Option Pending := none
  outputs : List Output := []
  errors : List JVal := []
  requests : List JObj := []
  pages : Nat := 0
  crashed : Bool := false

/-- `Marker: state.marker` as a JS value (`null` at the start of a scope). -/
def markerVal : Option String → JVal
  | some s => JVal.str s
  | none => JVal.nul

/-- The request object built in `_read`:
`_.defaults({}, {Prefix, Marker, MaxKeys}, _.pick(state.awsOptions, allowedOptions))`. -/
def buildRequest (state : ScanState) (size : Int) : JObj :=
  JObj.defaults
    [("Prefix", JVal.str state.pfx), ("Marker", markerVal state.marker),
     ("MaxKeys", JVal.num size)]
    (JObj.pick state.awsOptions allowedOptions)

/-- `_read(size)` up to the `listObjects` call: no-op under the `_reading`
lock, `push(null)` when no states remain, no-op on non-positive demand, and
otherwise take the lock and issue one request for the last scan state. -/
def readStep (m : Machine) (size : Int) : Machine :=
  if m.stream.reading then m
  else if m.stream.states.length = 0 then
    { m with outputs := m.outputs ++ [Output.eos] }
  else if size ≤ 0 then m
  else
    match m.stream.states.getLast? with
    | none => m
    | some state =>
      let request := buildRequest state size
      { m with
        stream := { m.stream with reading := true },
        pending := some { size := size, request := request },
        requests := m.requests ++ [request] }

/-- The JS truthiness test `result.NextMarker || ...`: an absent or empty
continuation token falls through to the alternative. -/
def nextMarkerTruthy : Option String → Option String
  | some s => if s.isEmpty then none else some s
  | none => none

/-- `state.marker = mk` through the reference captured by the callback: the
state is the last element of `this.states`. -/
def setLastMarker (states : List ScanState) (mk : String) : List ScanState :=
  match states.getLast? with
  | none => states
  | some s => states.dropLast ++ [{ s with marker := some mk }]

/-- The `forEach` body of the callback: copy the request's `Bucket` onto the
entry and run `process`, accumulating the stream and the push/error logs. -/
def pageStep (request : JObj) (state : ScanState)
    (acc : Stream × List Output × List JVal) (e : Entry) :
    Stream × List Output × List JVal :=
  let e' := { e with Bucket := JObj.get request "Bucket" }
  let r := Stream.process acc.1 state e'
  (r.1, acc.2.1 ++ r.2.1, acc.2.2 ++ r.2.2)

/-- The `forEach` loop of the callback over `result.Contents`, followed by
`this._reading = false`: process every entry of the page, appending the
pushes and error emissions to the logs. -/
def processPage (m : Machine) (request : JObj) (state : ScanState)
    (contents : List Entry) : Machine :=
  let acc := contents.foldl (pageStep request state) (m.stream, [], [])
  { m with stream := { acc.1 with reading := false },
           outputs := m.outputs ++ acc.2.1,
           errors := m.errors ++ acc.2.2 }

/-- The tail of the callback: on truncation update the state's marker to the
continuation token — or, when that is falsy, to the key of the last entry of
the page (`_.last(result.Contents).Key`, a crash when the page is empty) —
otherwise pop the exhausted state; then re-enter `_read` with the remaining
demand. -/
def advanceAndContinue (m : Machine) (size : Int) (result : ListResult) :
    Machine :=
  let left := size - (result.Contents.length : Int)
  if result.IsTruncated then
    match nextMarkerTruthy result.NextMarker with
    | some t =>
      readStep { m with stream :=
        { m.stream with states := setLastMarker m.stream.states t } } left
    | none =>
      match result.Contents.getLast? with
      | none => { m with crashed := true }
      | some lastE =>
        readStep { m with stream :=
          { m.stream with states := setLastMarker m.stream.states lastE.Key } } left
  else
    readStep { m with stream :=
      { m.stream with states := m.stream.states.dropLast } } left

/-- The `listObjects` callback: emit an error verbatim (leaving `_reading`
set), or process the page's entries and advance the pagination state. -/
def handleResponse (m : Machine) (res : Except JVal ListResult) : Machine :=
  match m.pending with
  | none => m
  | some p =>
    match res with
    | Except.error e =>
      { m with pending := none, pages := m.pages + 1, errors := m.errors ++ [e] }
    | Except.ok result =>
      match m.stream.states.getLast? with
      | none => { m with pending := none, pages := m.pages + 1 }
      | some state =>
        advanceAndContinue
          (processPage { m with pending := none, pages := m.pages + 1 }
            p.request state result.Contents)
          p.size result

/-- An external stimulus: a consumer pull (a `_read(size)` call from the
stream machinery) or the completion of the outstanding `listObjects` call. -/
inductive Event : Type
  | pull (size : Int)
  | response (r : Except JVal ListResult)

/-- One event; a crashed machine (an uncaught callback exception) does
nothing further. -/
def Machine.step (m : Machine) (ev : Event) : Machine :=
  if m.crashed then m
  else
    match ev with
    | Event.pull size => readStep m size
    | Event.response r => handleResponse m r

/-- A whole stimulus sequence. -/
def Machine.run (m : Machine) (evs : List Event) : Machine :=
  evs.foldl Machine.step m

/-- The machine as it stands right after construction. -/
def Machine.start (st : Stream) : Machine :=
  { stream := st }

/-! ## Object-model lemmas -/

theorem JObj.get_append (a b : JObj) (k : String) :
    JObj.get (a ++ b) k = (JObj.get a k).or (JObj.get b k) := by
  induction a with
  | nil => simp [JObj.get]
  | cons hd tl ih =>
    by_cases h : hd.1 = k
    · simp [JObj.get, h]
    · simpa [JObj.get, h] using ih

theorem JObj.get_filter_isNone (a b : JObj) (k : String) :
    JObj.get (List.filter (fun kv => (JObj.get a kv.1).isNone) b) k =
      if (JObj.get a k).isSome then none else JObj.get b k := by
  induction b with
  | nil =>
    cases JObj.get a k <;> simp [JObj.get]
  | cons hd tl ih =>
    rw [List.filter_cons]
    cases hcond : JObj.get a hd.1 with
    | none =>
      rw [if_pos (by simp [hcond])]
      by_cases h : hd.1 = k
      · subst h
        simp [JObj.get, hcond]
      · simpa [JObj.get, h] using ih
    | some v =>
      rw [if_neg (by simp [hcond])]
      by_cases h : hd.1 = k
      · subst h
        simp [JObj.get, hcond, ih]
      · simpa [JObj.get, h] using ih

theorem JObj.get_defaults (a b : JObj) (k : String) :
    JObj.get (JObj.defaults a b) k = (JObj.get a k).or (JObj.get b k) := by
  unfold JObj.defaults
  rw [JObj.get_append, JObj.get_filter_isNone]
  cases JObj.get a k <;> simp

theorem JObj.get_assign (a b : JObj) (k : String) :
    JObj.get (JObj.assign a b) k = (JObj.get b k).or (JObj.get a k) := by
  unfold JObj.assign
  rw [JObj.get_append, JObj.get_filter_isNone]
  cases JObj.get b k <;> simp

theorem JObj.get_pick (o : JObj) (ks : List String) (k : String) :
    JObj.get (JObj.pick o ks) k = if k ∈ ks then JObj.get o k else none := by
  induction ks with
  | nil => simp [JObj.pick, JObj.get]
  | cons hd tl ih =>
    unfold JObj.pick at ih ⊢
    rw [List.filterMap_cons]
    cases hga : JObj.get o hd with
    | none =>
      by_cases h : k = hd
      · subst h
        simp [hga, ih]
      · simp [h, ih]
    | some v =>
      by_cases h : k = hd
      · subst h
        simp [JObj.get, hga]
      · simpa [JObj.get, h, Ne.symm h] using ih

/-! ## C7: prefix extraction -/

theorem map_text_map_lit (ls : List String) :
    List.map Segment.text (List.map Segment.lit ls) = ls := by
  induction ls with
  | nil => rfl
  | cons hd tl ih => simp only [List.map_cons, Segment.text, ih]

theorem globPrefix_all_lits (ls : List String) :
    globPrefix (List.map Segment.lit ls) = String.intercalate "/" ls := by
  unfold globPrefix
  have h1 : List.takeWhile Segment.isString (List.map Segment.lit ls) =
      List.map Segment.lit ls := by
    induction ls with
    | nil => rfl
    | cons hd tl ih => simp [List.takeWhile, Segment.isString, ih]
  rw [h1, map_text_map_lit]

theorem globPrefix_stops_at_wild (ls : List String) (rest : List Segment) :
    globPrefix (List.map Segment.lit ls ++ Segment.wild :: rest) =
      String.intercalate "/" ls := by
  unfold globPrefix
  have h1 : List.takeWhile Segment.isString
      (List.map Segment.lit ls ++ Segment.wild :: rest) = List.map Segment.lit ls := by
    induction ls with
    | nil => simp [List.takeWhile, Segment.isString]
    | cons hd tl ih => simp [List.takeWhile, Segment.isString, ih]
  rw [h1, map_text_map_lit]

/-- C7: `prefix` concatenates the leading run of literal segments joined by
`/`, stopping at the first non-literal segment, and yields `""` on a leading
wildcard (`["a","b","c"] ↦ "a/b/c"`, `["a","b",WILDCARD] ↦ "a/b"`);
`prefixes` applies `prefix` to every alternation branch of the compiled glob
in branch order, giving exactly one prefix when there is no alternation. -/
theorem c7_prefix_extraction :
    (∀ ls : List String, globPrefix (List.map Segment.lit ls) = String.intercalate "/" ls)
    ∧ (∀ (ls : List String) (rest : List Segment),
        globPrefix (List.map Segment.lit ls ++ Segment.wild :: rest) =
          String.intercalate "/" ls)
    ∧ (∀ rest : List Segment, globPrefix (Segment.wild :: rest) = "")
    ∧ globPrefix [Segment.lit "a", Segment.lit "b", Segment.lit "c"] = "a/b/c"
    ∧ globPrefix [Segment.lit "a", Segment.lit "b", Segment.wild] = "a/b"
    ∧ (∀ g : CompiledGlob, globPrefixes g = List.map globPrefix g.set)
    ∧ (∀ (g : CompiledGlob) (branch : List Segment),
        g.set = [branch] → globPrefixes g = [globPrefix branch]) := by
  refine ⟨globPrefix_all_lits, globPrefix_stops_at_wild, ?_, ?_, ?_, ?_, ?_⟩
  · intro rest
    simpa using globPrefix_stops_at_wild [] rest
  · rfl
  · simpa using globPrefix_stops_at_wild ["a", "b"] []
  · intro g; rfl
  · intro g branch h
    unfold globPrefixes
    rw [h]
    rfl

/-- Witness for C7 at a concrete alternation glob. -/
theorem c7_prefix_extraction_witness :
    globPrefixes
        { negate := false,
          set := [[Segment.lit "a", Segment.lit "b", Segment.wild]],
          bodyMatch := fun _ => false } =
      [globPrefix [Segment.lit "a", Segment.lit "b", Segment.wild]] :=
  c7_prefix_extraction.2.2.2.2.2.2 _ _ rfl

/-! ## C1: filters are exclusionary -/

theorem Stream.mtch_iff_of_negated_filters (st : Stream) (search : ScanState)
    (e : Entry) (hneg : ∀ f ∈ st.filters, f.negate = true) :
    Stream.mtch st search e = true ↔
      (search.mtch.mtch e.Key = true ∧ ∀ f ∈ st.filters, f.bodyMatch e.Key = false) := by
  unfold Stream.mtch
  rw [Bool.and_eq_true, List.all_eq_true]
  constructor
  · rintro ⟨hf, hg⟩
    refine ⟨hg, fun f hfmem => ?_⟩
    have h1 := hf f hfmem
    have h2 := hneg f hfmem
    unfold CompiledGlob.mtch at h1
    rw [h2] at h1
    cases hb : f.bodyMatch e.Key
    · rfl
    · rw [hb] at h1; simp at h1
  · rintro ⟨hg, hf⟩
    refine ⟨fun f hfmem => ?_, hg⟩
    have h1 := hf f hfmem
    have h2 := hneg f hfmem
    unfold CompiledGlob.mtch
    rw [h1, h2]
    rfl

/-- C1: with every filter a negation (as built by the constructor from
`!`-prefixed patterns), an entry is pushed by `process` iff the scan state's
compiled glob matches its key and no filter pattern's body matches its key;
in particular an entry matching any filter pattern is excluded even when the
positive scope matches it. -/
theorem c1_filters_exclude (st : Stream) (search : ScanState) (e : Entry)
    (hneg : ∀ f ∈ st.filters, f.negate = true)
    (hfresh : ¬(st.unique = true ∧ st.hasProcessed e = true))
    (hfmt : st.format = "object") :
    (Stream.process st search e).2.1 ≠ [] ↔
      (search.mtch.mtch e.Key = true ∧ ∀ f ∈ st.filters, f.bodyMatch e.Key = false) := by
  have hd : (st.unique && st.hasProcessed e) = false := by
    cases hu : st.unique <;> cases hp : st.hasProcessed e <;> simp_all
  unfold Stream.process
  rw [hd]
  simp only [Bool.false_eq_true, if_false]
  have hm := Stream.mtch_iff_of_negated_filters
    { st with processed := key e :: st.processed } search e (by simpa using hneg)
  simp only at hm
  rw [← hm]
  cases hmm : Stream.mtch { st with processed := key e :: st.processed } search e
  · simp [hmm]
  · simp [hfmt, hmm]

/-- Witness for C1: a stream with one negated filter, an always-matching
scope and a fresh entry. -/
theorem c1_filters_exclude_witness :
    let fneg : CompiledGlob :=
      { negate := true, set := [], bodyMatch := fun k => k = "d/c" }
    let gpos : CompiledGlob :=
      { negate := false, set := [[Segment.wild]], bodyMatch := fun _ => true }
    let search : ScanState :=
      { mtch := gpos, awsOptions := [], pfx := "", marker := none }
    let st : Stream :=
      { filters := [fneg], states := [search], processed := [],
        unique := true, format := "object" }
    (Stream.process st search { Key := "a/b" }).2.1 ≠ [] := by
  intro fneg gpos search st
  rw [c1_filters_exclude st search { Key := "a/b" }
    (by intro f hf; simp only [st, List.mem_singleton] at hf; rw [hf])
    (by intro h; exact absurd h.2 (by decide))
    rfl]
  constructor
  · rfl
  · intro f hf
    simp only [st, List.mem_singleton] at hf
    rw [hf]
    decide

/-! ## C3: at most one outstanding listing call -/

/-- The re-entrancy guard: a `_read` under the `_reading` lock is a no-op. -/
theorem readStep_of_reading (m : Machine) (size : Int)
    (h : m.stream.reading = true) : readStep m size = m := by
  unfold readStep
  rw [h]
  rfl

/-- The machine invariant behind C3: an in-flight call implies the lock is
held, and every issued request is matched by a completed page except for the
at most one in flight. -/
def CallInv (m : Machine) : Prop :=
  (m.pending.isSome = true → m.stream.reading = true)
  ∧ m.requests.length = m.pages + (if m.pending.isSome then 1 else 0)

theorem callInv_readStep (m : Machine) (size : Int) (h : CallInv m) :
    CallInv (readStep m size) := by
  unfold readStep
  cases hr : m.stream.reading
  · simp only [Bool.false_eq_true, if_false]
    by_cases hs : m.stream.states.length = 0
    · simpa [hs] using ⟨h.1, h.2⟩
    · rw [if_neg hs]
      by_cases hsz : size ≤ 0
      · simpa [hsz] using h
      · rw [if_neg hsz]
        cases hl : m.stream.states.getLast? with
        | none => exact h
        | some state =>
          have hpn : m.pending.isSome = false := by
            cases hp : m.pending.isSome
            · rfl
            · exact absurd (h.1 hp) (by rw [hr]; simp)
          refine ⟨fun _ => rfl, ?_⟩
          have h2 := h.2
          rw [hpn] at h2
          simp only [Bool.false_eq_true, if_false, Nat.add_zero] at h2
          simp only [List.length_append, List.length_cons, List.length_nil,
            Option.isSome_some, if_true]
          omega
  · simpa [hr] using h

theorem handleResponse_no_pending (m : Machine) (r : Except JVal ListResult)
    (hp : m.pending = none) : handleResponse m r = m := by
  unfold handleResponse
  rw [hp]

theorem handleResponse_error (m : Machine) (p : Pending) (e : JVal)
    (hp : m.pending = some p) :
    handleResponse m (Except.error e) =
      { m with pending := none, pages := m.pages + 1,
               errors := m.errors ++ [e] } := by
  unfold handleResponse
  rw [hp]

theorem handleResponse_ok_no_state (m : Machine) (p : Pending)
    (result : ListResult) (hp : m.pending = some p)
    (hl : m.stream.states.getLast? = none) :
    handleResponse m (Except.ok result) =
      { m with pending := none, pages := m.pages + 1 } := by
  unfold handleResponse
  rw [hp, hl]

theorem handleResponse_ok (m : Machine) (p : Pending) (result : ListResult)
    (state : ScanState) (hp : m.pending = some p)
    (hl : m.stream.states.getLast? = some state) :
    handleResponse m (Except.ok result) =
      advanceAndContinue
        (processPage { m with pending := none, pages := m.pages + 1 }
          p.request state result.Contents)
        p.size result := by
  unfold handleResponse
  rw [hp, hl]

theorem callInv_advanceAndContinue (m : Machine) (size : Int)
    (result : ListResult) (h : CallInv m) :
    CallInv (advanceAndContinue m size result) := by
  unfold advanceAndContinue
  cases ht : result.IsTruncated
  · simp only [Bool.false_eq_true, if_false]
    exact callInv_readStep _ _ h
  · simp only [if_true]
    cases hnm : nextMarkerTruthy result.NextMarker with
    | some t => exact callInv_readStep _ _ h
    | none =>
      cases hle : result.Contents.getLast? with
      | none => exact ⟨h.1, h.2⟩
      | some lastE => exact callInv_readStep _ _ h

theorem callInv_processPage (m : Machine) (request : JObj) (state : ScanState)
    (contents : List Entry) (hp : m.pending = none)
    (h2 : m.requests.length = m.pages) :
    CallInv (processPage m request state contents) := by
  refine ⟨fun hs => ?_, ?_⟩
  · rw [show (processPage m request state contents).pending = m.pending from rfl,
      hp] at hs
    simp at hs
  · rw [show (processPage m request state contents).pending = m.pending from rfl, hp]
    simpa using h2

theorem callInv_handleResponse (m : Machine) (r : Except JVal ListResult)
    (h : CallInv m) : CallInv (handleResponse m r) := by
  cases hp : m.pending with
  | none =>
    rw [handleResponse_no_pending m r hp]
    exact h
  | some p =>
    have hreq : m.requests.length = m.pages + 1 := by
      have h2 := h.2
      rw [hp] at h2
      simpa using h2
    cases r with
    | error e =>
      rw [handleResponse_error m p e hp]
      exact ⟨fun hs => by simp at hs, by simpa using hreq⟩
    | ok result =>
      cases hl : m.stream.states.getLast? with
      | none =>
        rw [handleResponse_ok_no_state m p result hp hl]
        exact ⟨fun hs => by simp at hs, by simpa using hreq⟩
      | some state =>
        rw [handleResponse_ok m p result state hp hl]
        exact callInv_advanceAndContinue _ _ _
          (callInv_processPage _ _ _ _ rfl (by simpa using hreq))

theorem callInv_step (m : Machine) (ev : Event) (h : CallInv m) :
    CallInv (Machine.step m ev) := by
  unfold Machine.step
  cases hc : m.crashed
  · cases ev with
    | pull size => simpa using callInv_readStep m size h
    | response r => simpa using callInv_handleResponse m r h
  · simpa using h

theorem callInv_run (m : Machine) (evs : List Event) (h : CallInv m) :
    CallInv (Machine.run m evs) := by
  induction evs generalizing m with
  | nil => exact h
  | cons ev rest ih => exact ih _ (callInv_step m ev h)

/-- C3: at most one listing call is ever outstanding.  A pull (`_read`)
arriving while a call is in flight (the `_reading` lock held) changes
nothing — in particular it issues no request — and over any stimulus
sequence the number of issued `listObjects` calls equals the number of
completed pages plus the single possibly outstanding call, so calls track
pages, not pull signals. -/
theorem c3_no_parallel_calls (st : Stream) (evs : List Event)
    (m : Machine) (size : Int) (hm : m.stream.reading = true) :
    readStep m size = m
    ∧ (Machine.run (Machine.start st) evs).requests.length =
        (Machine.run (Machine.start st) evs).pages +
          (if (Machine.run (Machine.start st) evs).pending.isSome then 1 else 0) := by
  refine ⟨readStep_of_reading m size hm, ?_⟩
  exact (callInv_run (Machine.start st) evs ⟨fun hs => by simp [Machine.start] at hs, by simp [Machine.start]⟩).2

/-- Witness for C3: a locked machine ignores a pull, and a one-page run
issues exactly one call. -/
theorem c3_no_parallel_calls_witness :
    let g : CompiledGlob := { negate := false, set := [[Segment.wild]], bodyMatch := fun _ => true }
    let s : ScanState := { mtch := g, awsOptions := [("Bucket", JVal.str "t")], pfx := "", marker := none }
    let st : Stream := { filters := [], states := [s], processed := [], unique := true, format := "object" }
    let locked : Machine := { stream := { st with reading := true }, pending := none }
    readStep locked 5 = locked
    ∧ (Machine.run (Machine.start st) [Event.pull 2]).requests.length =
        (Machine.run (Machine.start st) [Event.pull 2]).pages +
          (if (Machine.run (Machine.start st) [Event.pull 2]).pending.isSome then 1 else 0) := by
  intro g s st locked
  exact c3_no_parallel_calls st [Event.pull 2] locked 5 rfl

/-! ## C5: listing errors surface verbatim, once, and halt the stream -/

/-- With the `_reading` lock held and no callback left to fire, every further
event is a no-op: the error branch never cleared `this._reading`. -/
theorem stuck_step (m : Machine) (ev : Event) (hr : m.stream.reading = true)
    (hp : m.pending = none) : Machine.step m ev = m := by
  unfold Machine.step
  cases hc : m.crashed
  · simp only [Bool.false_eq_true, if_false]
    cases ev with
    | pull size => exact readStep_of_reading m size hr
    | response r => exact handleResponse_no_pending m r hp
  · simp only [if_true]

theorem stuck_run (m : Machine) (evs : List Event) (hr : m.stream.reading = true)
    (hp : m.pending = none) : Machine.run m evs = m := by
  induction evs with
  | nil => rfl
  | cons ev rest ih =>
    show Machine.run (Machine.step m ev) rest = m
    rw [stuck_step m ev hr hp]
    exact ih

/-- C5: when the outstanding `listObjects` call fails, the error value is
emitted on the error channel verbatim, exactly once — the resulting machine
issues no request for this event and, because the error branch returns
without clearing `_reading`, every later pull or response leaves the machine
unchanged, so no further listing call is ever made and no second error is
ever emitted. -/
theorem c5_error_terminal (m : Machine) (p : Pending) (e : JVal)
    (evs : List Event) (hp : m.pending = some p)
    (hr : m.stream.reading = true) :
    (handleResponse m (Except.error e)).errors = m.errors ++ [e]
    ∧ (handleResponse m (Except.error e)).requests = m.requests
    ∧ Machine.run (handleResponse m (Except.error e)) evs
        = handleResponse m (Except.error e) := by
  rw [handleResponse_error m p e hp]
  exact ⟨rfl, rfl, stuck_run _ evs hr rfl⟩

/-- Witness for C5: a concrete in-flight machine receiving `aws-error`. -/
theorem c5_error_terminal_witness :
    let g : CompiledGlob := { negate := false, set := [[Segment.wild]], bodyMatch := fun _ => true }
    let s : ScanState := { mtch := g, awsOptions := [("Bucket", JVal.str "t")], pfx := "", marker := none }
    let m : Machine :=
      { stream := { filters := [], states := [s], processed := [],
                    unique := true, format := "object", reading := true },
        pending := some { size := 3, request := [("Bucket", JVal.str "t")] },
        requests := [[("Bucket", JVal.str "t")]] }
    let e := JVal.str "aws-error"
    let evs := [Event.pull 5,
      Event.response (Except.ok { Contents := [{ Key := "a" }], IsTruncated := false, NextMarker := none })]
    (handleResponse m (Except.error e)).errors = [] ++ [e]
    ∧ (handleResponse m (Except.error e)).requests = [[("Bucket", JVal.str "t")]]
    ∧ Machine.run (handleResponse m (Except.error e)) evs
        = handleResponse m (Except.error e) := by
  intro g s m e evs
  exact c5_error_terminal m _ e evs rfl rfl

/-! ## C2: pagination marker update -/

theorem process_fields (st : Stream) (search : ScanState) (e : Entry) :
    (Stream.process st search e).1.states = st.states
    ∧ (Stream.process st search e).1.filters = st.filters
    ∧ (Stream.process st search e).1.unique = st.unique
    ∧ (Stream.process st search e).1.format = st.format
    ∧ (Stream.process st search e).1.reading = st.reading := by
  unfold Stream.process
  dsimp only
  split_ifs
  all_goals exact ⟨rfl, rfl, rfl, rfl, rfl⟩

theorem foldl_pageStep_states (request : JObj) (state : ScanState)
    (l : List Entry) (acc : Stream × List Output × List JVal) :
    (l.foldl (pageStep request state) acc).1.states = acc.1.states := by
  induction l generalizing acc with
  | nil => rfl
  | cons e rest ih =>
    rw [List.foldl_cons, ih]
    exact (process_fields acc.1 state _).1

theorem processPage_states (m : Machine) (request : JObj) (state : ScanState)
    (contents : List Entry) :
    (processPage m request state contents).stream.states = m.stream.states := by
  unfold processPage
  exact foldl_pageStep_states request state contents _

theorem readStep_states (m : Machine) (size : Int) :
    (readStep m size).stream.states = m.stream.states := by
  unfold readStep
  repeat' split
  all_goals rfl

theorem getLast?_setLastMarker (states : List ScanState) (s : ScanState)
    (mk : String) (h : states.getLast? = some s) :
    (setLastMarker states mk).getLast? = some { s with marker := some mk } := by
  unfold setLastMarker
  rw [h]
  simp

theorem buildRequest_Marker (state : ScanState) (size : Int) :
    JObj.get (buildRequest state size) "Marker" = some (markerVal state.marker) := by
  unfold buildRequest
  rw [JObj.get_defaults]
  rfl

/-- C2 (amended): after a successful page, (a) if the result is truncated and
carries a non-empty continuation token, the state's marker becomes that token
and any subsequent request built for that state carries it as the `Marker`
parameter; (b) if the result is truncated but the token is absent *or the
empty string* (the code tests JS truthiness, `result.NextMarker || ...`), the
marker becomes the key of the last entry of the page; (c) if the result is
not truncated, the scan state is removed from the active collection. -/
theorem c2_marker_update (m : Machine) (p : Pending) (result : ListResult)
    (state : ScanState) (hp : m.pending = some p)
    (hl : m.stream.states.getLast? = some state) :
    (∀ t, result.IsTruncated = true → result.NextMarker = some t → t ≠ "" →
      ∃ s', (handleResponse m (Except.ok result)).stream.states.getLast? = some s'
        ∧ s'.marker = some t
        ∧ ∀ sz, JObj.get (buildRequest s' sz) "Marker" = some (JVal.str t))
    ∧ (∀ lastE, result.IsTruncated = true →
        nextMarkerTruthy result.NextMarker = none →
        result.Contents.getLast? = some lastE →
        ∃ s', (handleResponse m (Except.ok result)).stream.states.getLast? = some s'
          ∧ s'.marker = some lastE.Key)
    ∧ (result.IsTruncated = false →
        (handleResponse m (Except.ok result)).stream.states = m.stream.states.dropLast) := by
  rw [handleResponse_ok m p result state hp hl]
  set mp := processPage { m with pending := none, pages := m.pages + 1 }
    p.request state result.Contents with hmp
  have hst : mp.stream.states = m.stream.states := processPage_states _ _ _ _
  refine ⟨?_, ?_, ?_⟩
  · intro t ht hnm hne
    have htr : nextMarkerTruthy result.NextMarker = some t := by
      rw [hnm]
      show (if t.isEmpty = true then none else some t) = some t
      rw [if_neg (by simpa [String.isEmpty_iff] using hne)]
    refine ⟨{ state with marker := some t }, ?_, rfl, ?_⟩
    · unfold advanceAndContinue
      rw [ht, if_pos rfl, htr]
      rw [readStep_states]
      exact getLast?_setLastMarker _ state t (by rw [hst, hl])
    · intro sz
      rw [buildRequest_Marker]
      rfl
  · intro lastE ht hnm hle
    refine ⟨{ state with marker := some lastE.Key }, ?_, rfl⟩
    unfold advanceAndContinue
    rw [ht, if_pos rfl, hnm, hle]
    rw [readStep_states]
    exact getLast?_setLastMarker _ state lastE.Key (by rw [hst, hl])
  · intro ht
    unfold advanceAndContinue
    rw [ht]
    simp only [Bool.false_eq_true, if_false]
    rw [readStep_states]
    simp only [hst]

/-- Counterexample to C2 as stated: an explicitly provided continuation token
that is the empty string is ignored — the marker becomes the last entry's
key `"a"`, not the provided token `""` — because the code tests JS
truthiness (`result.NextMarker || _.last(result.Contents).Key`). -/
theorem c2_counterexample :
    let g : CompiledGlob := { negate := false, set := [[Segment.wild]], bodyMatch := fun _ => true }
    let s : ScanState := { mtch := g, awsOptions := [("Bucket", JVal.str "t")], pfx := "", marker := none }
    let m : Machine :=
      { stream := { filters := [], states := [s], processed := [],
                    unique := true, format := "object", reading := true },
        pending := some { size := 3, request := [("Bucket", JVal.str "t")] } }
    let res : ListResult :=
      { Contents := [{ Key := "a" }], IsTruncated := true, NextMarker := some "" }
    res.IsTruncated = true
    ∧ res.NextMarker = some ""
    ∧ ((handleResponse m (Except.ok res)).stream.states.getLast?).map ScanState.marker
        = some (some "a")
    ∧ some "a" ≠ (some "" : Option String) := by
  exact ⟨rfl, rfl, rfl, by decide⟩

/-- Witness for the amended C2 at a concrete machine with token `"b"`. -/
theorem c2_marker_update_witness :
    let g : CompiledGlob := { negate := false, set := [[Segment.wild]], bodyMatch := fun _ => true }
    let s : ScanState := { mtch := g, awsOptions := [("Bucket", JVal.str "t")], pfx := "", marker := none }
    let m : Machine :=
      { stream := { filters := [], states := [s], processed := [],
                    unique := true, format := "object", reading := true },
        pending := some { size := 3, request := [("Bucket", JVal.str "t")] } }
    let res : ListResult :=
      { Contents := [{ Key := "a" }], IsTruncated := true, NextMarker := some "b" }
    ∃ s', (handleResponse m (Except.ok res)).stream.states.getLast? = some s'
      ∧ s'.marker = some "b"
      ∧ ∀ sz, JObj.get (buildRequest s' sz) "Marker" = some (JVal.str "b") := by
  intro g s m res
  exact (c2_marker_update m _ res s rfl rfl).1 "b" rfl rfl (by decide)

/-! ## C10: the marker fallback and empty pages -/

/-- The precondition of C10 on a single listing result: a truncated result
with a falsy continuation token carries at least one entry. -/
def ResultOk (res : ListResult) : Prop :=
  res.IsTruncated = true → nextMarkerTruthy res.NextMarker = none →
    res.Contents ≠ []

/-- The C10 precondition over a stimulus: every delivered success satisfies
`ResultOk`. -/
def EventOk : Event → Prop
  | Event.response (Except.ok res) => ResultOk res
  | _ => True

theorem readStep_crashed (m : Machine) (size : Int) :
    (readStep m size).crashed = m.crashed := by
  unfold readStep
  repeat' split
  all_goals rfl

theorem advanceAndContinue_crashed (m : Machine) (size : Int)
    (res : ListResult) (hok : ResultOk res) :
    (advanceAndContinue m size res).crashed = m.crashed := by
  unfold advanceAndContinue
  cases ht : res.IsTruncated
  · simp only [Bool.false_eq_true, if_false]
    exact readStep_crashed _ _
  · simp only [if_true]
    cases hnm : nextMarkerTruthy res.NextMarker with
    | some t => exact readStep_crashed _ _
    | none =>
      cases hle : res.Contents.getLast? with
      | none =>
        exact absurd (List.getLast?_eq_none_iff.mp hle) (hok ht hnm)
      | some lastE => exact readStep_crashed _ _

theorem step_pull (m : Machine) (size : Int) (hc : m.crashed = false) :
    Machine.step m (Event.pull size) = readStep m size := by
  unfold Machine.step
  rw [hc]
  rfl

theorem step_response (m : Machine) (r : Except JVal ListResult)
    (hc : m.crashed = false) :
    Machine.step m (Event.response r) = handleResponse m r := by
  unfold Machine.step
  rw [hc]
  rfl

theorem step_crashed (m : Machine) (ev : Event) (hok : EventOk ev)
    (hc : m.crashed = false) : (Machine.step m ev).crashed = false := by
  cases ev with
  | pull size =>
    rw [step_pull m size hc, readStep_crashed]
    exact hc
  | response r =>
    rw [step_response m r hc]
    cases hp : m.pending with
    | none => rw [handleResponse_no_pending m r hp]; exact hc
    | some p =>
      cases r with
      | error e => rw [handleResponse_error m p e hp]; exact hc
      | ok result =>
        cases hl : m.stream.states.getLast? with
        | none => rw [handleResponse_ok_no_state m p result hp hl]; exact hc
        | some state =>
          rw [handleResponse_ok m p result state hp hl,
            advanceAndContinue_crashed _ _ _ hok]
          exact hc

theorem run_crashed (m : Machine) (evs : List Event)
    (hok : ∀ ev ∈ evs, EventOk ev) (hc : m.crashed = false) :
    (Machine.run m evs).crashed = false := by
  induction evs generalizing m with
  | nil => exact hc
  | cons ev rest ih =>
    exact ih _ (fun e he => hok e (List.mem_cons_of_mem ev he))
      (step_crashed m ev (hok ev (List.mem_cons_self ev rest)) hc)

/-- C10: under the precondition that every truncated listing result lacking a
(truthy) continuation token contains at least one entry, the marker-update
step never reads a missing element — no run ever crashes; absent that
precondition the fallback reads `.Key` of `_.last([])`: a truncated,
token-less, empty page crashes the callback, the last element of the empty
entry list being undefined. -/
theorem c10_marker_fallback_safety :
    (∀ (st : Stream) (evs : List Event), (∀ ev ∈ evs, EventOk ev) →
      (Machine.run (Machine.start st) evs).crashed = false)
    ∧ (∀ (m : Machine) (p : Pending) (state : ScanState) (res : ListResult),
        m.pending = some p → m.stream.states.getLast? = some state →
        res.IsTruncated = true → nextMarkerTruthy res.NextMarker = none →
        res.Contents = [] →
        (handleResponse m (Except.ok res)).crashed = true
        ∧ res.Contents.getLast? = none) := by
  constructor
  · intro st evs hok
    exact run_crashed _ evs hok rfl
  · intro m p state res hp hl ht hnm hce
    constructor
    · rw [handleResponse_ok m p res state hp hl]
      unfold advanceAndContinue
      rw [ht, if_pos rfl, hnm]
      rw [show res.Contents.getLast? = none from by rw [hce]; rfl]
    · rw [hce]
      rfl

/-- Witness for C10: a well-formed two-page run never crashes, and the
degenerate empty truncated page does. -/
theorem c10_marker_fallback_safety_witness :
    let g : CompiledGlob := { negate := false, set := [[Segment.wild]], bodyMatch := fun _ => true }
    let s : ScanState := { mtch := g, awsOptions := [("Bucket", JVal.str "t")], pfx := "", marker := none }
    let st : Stream := { filters := [], states := [s], processed := [],
                         unique := true, format := "object" }
    let m : Machine :=
      { stream := { st with reading := true },
        pending := some { size := 3, request := [("Bucket", JVal.str "t")] } }
    let good : List Event := [Event.pull 3,
      Event.response (Except.ok { Contents := [{ Key := "a" }], IsTruncated := true, NextMarker := some "b" }),
      Event.response (Except.ok { Contents := [{ Key := "c" }], IsTruncated := false, NextMarker := none })]
    let bad : ListResult := { Contents := [], IsTruncated := true, NextMarker := none }
    (Machine.run (Machine.start st) good).crashed = false
    ∧ (handleResponse m (Except.ok bad)).crashed = true := by
  intro g s st m good bad
  constructor
  · refine c10_marker_fallback_safety.1 st good ?_
    intro ev hev
    rcases List.mem_cons.mp hev with rfl | hev
    · trivial
    rcases List.mem_cons.mp hev with rfl | hev
    · intro h1 h2
      exact absurd h2 (by decide)
    rcases List.mem_cons.mp hev with rfl | hev
    · intro h1
      exact absurd h1 (by decide)
    · exact absurd hev (List.not_mem_nil ev)
  · exact (c10_marker_fallback_safety.2 m _ s bad rfl rfl rfl rfl rfl).1

/-! ## C8: request-parameter passthrough -/

/-- Counterexample to C8 as stated: a caller-supplied request parameter
outside the `allowedOptions` whitelist (`Foo`) is *not* merged into the
listing call — `_.pick(state.awsOptions, GlobStream.allowedOptions)` keeps
only `Bucket`. -/
theorem c8_counterexample :
    let g : CompiledGlob :=
      { negate := false, set := [[Segment.wild]], bodyMatch := fun _ => true }
    let state : ScanState :=
      { mtch := g,
        awsOptions := [("Bucket", JVal.str "test"), ("Foo", JVal.str "1")],
        pfx := "", marker := none }
    (JObj.get state.awsOptions "Foo").isSome = true
    ∧ JObj.get (buildRequest state 5) "Foo" = none := ⟨rfl, rfl⟩

/-- C8 (amended): only the `allowedOptions` whitelist — exactly the `Bucket`
key — is merged from the scope's request parameters into each listing call,
alongside the scan state's prefix, its marker and the demand-derived
`MaxKeys`; every other caller-supplied request-parameter key is dropped from
the call. -/
theorem c8_request_whitelist (state : ScanState) (size : Int) (k : String)
    (v : JVal) (hk : k ∈ allowedOptions)
    (hv : JObj.get state.awsOptions k = some v) :
    JObj.get (buildRequest state size) k = some v
    ∧ JObj.get (buildRequest state size) "Prefix" = some (JVal.str state.pfx)
    ∧ JObj.get (buildRequest state size) "Marker" = some (markerVal state.marker)
    ∧ JObj.get (buildRequest state size) "MaxKeys" = some (JVal.num size)
    ∧ ∀ k', k' ∉ allowedOptions → k' ∉ ["Prefix", "Marker", "MaxKeys"] →
        JObj.get (buildRequest state size) k' = none := by
  have hkb : k = "Bucket" := by simpa [allowedOptions] using hk
  subst hkb
  unfold buildRequest
  refine ⟨?_, ?_, ?_, ?_, ?_⟩
  · rw [JObj.get_defaults]
    have h1 : JObj.get
        [("Prefix", JVal.str state.pfx), ("Marker", markerVal state.marker),
         ("MaxKeys", JVal.num size)] "Bucket" = none := rfl
    rw [h1, JObj.get_pick, if_pos (by simp [allowedOptions]), hv]
    rfl
  · rw [JObj.get_defaults]
    rfl
  · rw [JObj.get_defaults]
    rfl
  · rw [JObj.get_defaults]
    rfl
  · intro k' hk1 hk2
    rw [JObj.get_defaults, JObj.get_pick, if_neg hk1]
    have hn : ¬(k' = "Prefix") ∧ ¬(k' = "Marker") ∧ ¬(k' = "MaxKeys") := by
      simpa [not_or] using hk2
    have h2 : JObj.get
        [("Prefix", JVal.str state.pfx), ("Marker", markerVal state.marker),
         ("MaxKeys", JVal.num size)] k' = none := by
      simp only [JObj.get]
      rw [if_neg (fun h => hn.1 h.symm), if_neg (fun h => hn.2.1 h.symm),
        if_neg (fun h => hn.2.2 h.symm)]
    rw [h2]
    rfl

/-- Witness for the amended C8 at a concrete scan state. -/
theorem c8_request_whitelist_witness :
    let g : CompiledGlob :=
      { negate := false, set := [[Segment.wild]], bodyMatch := fun _ => true }
    let state : ScanState :=
      { mtch := g,
        awsOptions := [("Bucket", JVal.str "test"), ("Foo", JVal.str "1")],
        pfx := "a/b", marker := some "mk" }
    JObj.get (buildRequest state 7) "Bucket" = some (JVal.str "test")
    ∧ JObj.get (buildRequest state 7) "Prefix" = some (JVal.str state.pfx)
    ∧ JObj.get (buildRequest state 7) "Marker" = some (markerVal state.marker)
    ∧ JObj.get (buildRequest state 7) "MaxKeys" = some (JVal.num 7)
    ∧ ∀ k', k' ∉ allowedOptions → k' ∉ ["Prefix", "Marker", "MaxKeys"] →
        JObj.get (buildRequest state 7) k' = none := by
  intro g state
  exact c8_request_whitelist state 7 "Bucket" (JVal.str "test")
    (by decide) rfl

/-! ## C4: deduplication across pages -/

theorem process_eq_push (st : Stream) (search : ScanState) (e : Entry)
    (hd : (st.unique && st.hasProcessed e) = false)
    (hm : search.mtch.mtch e.Key = true)
    (hfil : st.filters = []) (hfmt : st.format = "object") :
    Stream.process st search e =
      ({ st with processed := key e :: st.processed }, [Output.entry e], []) := by
  unfold Stream.process
  rw [hd]
  simp only [Bool.false_eq_true, if_false]
  dsimp only
  have hmt : Stream.mtch { st with processed := key e :: st.processed } search e = true := by
    unfold Stream.mtch
    dsimp only
    rw [hfil, hm]
    rfl
  rw [if_pos hmt]
  have h1 : ({ st with processed := key e :: st.processed } : Stream).format
      = "object" := hfmt
  rw [if_neg (by rw [h1]; decide), if_pos h1]

theorem process_eq_skip (st : Stream) (search : ScanState) (e : Entry)
    (hd : (st.unique && st.hasProcessed e) = true) :
    Stream.process st search e = (st, [], []) := by
  unfold Stream.process
  rw [hd]
  rfl

/-- One scan state over container `b` with glob `g` (the C4 scenario). -/
def c4State (g : CompiledGlob) (b : String) : ScanState :=
  { mtch := g, awsOptions := [("Bucket", JVal.str b)], pfx := "", marker := none }

def c4Stream (g : CompiledGlob) (b : String) (u : Bool) : Stream :=
  { filters := [], states := [c4State g b], processed := [], unique := u,
    format := "object" }

/-- Page 1 of the C4 scenario: the entry `k`, truncated with token `mk`. -/
def c4Page1 (k : String) : ListResult :=
  { Contents := [{ Key := k }], IsTruncated := true, NextMarker := some "mk" }

/-- Page 2 of the C4 scenario: the same entry `k` again, final page. -/
def c4Page2 (k : String) : ListResult :=
  { Contents := [{ Key := k }], IsTruncated := false, NextMarker := none }

def c4Events (k : String) : List Event :=
  [Event.pull 3, Event.response (Except.ok (c4Page1 k)),
   Event.response (Except.ok (c4Page2 k))]

def c4Req1 (b : String) : JObj :=
  [("Prefix", JVal.str ""), ("Marker", JVal.nul), ("MaxKeys", JVal.num 3),
   ("Bucket", JVal.str b)]

def c4Req2 (b : String) : JObj :=
  [("Prefix", JVal.str ""), ("Marker", JVal.str "mk"), ("MaxKeys", JVal.num 2),
   ("Bucket", JVal.str b)]

/-- The entry as pushed: the request's bucket copied onto it. -/
def c4Entry (k b : String) : Entry := { Key := k, Bucket := some (JVal.str b) }

/-- The machine after the initial pull: locked, one call in flight. -/
def c4M1 (g : CompiledGlob) (b : String) (u : Bool) : Machine :=
  { stream := { filters := [], states := [c4State g b], processed := [],
                unique := u, format := "object", reading := true },
    pending := some { size := 3, request := c4Req1 b },
    outputs := [], errors := [], requests := [c4Req1 b], pages := 0,
    crashed := false }

/-- The machine after page 1: entry pushed, marker updated, second call in
flight. -/
def c4M2 (g : CompiledGlob) (b k : String) (u : Bool) : Machine :=
  { stream := { filters := [],
                states := [{ c4State g b with marker := some "mk" }],
                processed := [key (c4Entry k b)], unique := u,
                format := "object", reading := true },
    pending := some { size := 2, request := c4Req2 b },
    outputs := [Output.entry (c4Entry k b)], errors := [],
    requests := [c4Req1 b, c4Req2 b], pages := 1, crashed := false }

theorem c4_step1 (g : CompiledGlob) (b : String) (u : Bool) :
    Machine.step (Machine.start (c4Stream g b u)) (Event.pull 3)
      = c4M1 g b u := by
  rw [step_pull _ _ rfl]
  rfl

theorem c4_step2 (g : CompiledGlob) (b k : String) (u : Bool)
    (hk : g.mtch k = true) :
    Machine.step (c4M1 g b u) (Event.response (Except.ok (c4Page1 k)))
      = c4M2 g b k u := by
  rw [step_response _ _ rfl,
    handleResponse_ok (c4M1 g b u) { size := 3, request := c4Req1 b }
      (c4Page1 k) (c4State g b) rfl rfl]
  unfold processPage
  rw [show (c4Page1 k).Contents = [{ Key := k }] from rfl]
  simp only [List.foldl_cons, List.foldl_nil]
  unfold pageStep
  dsimp only
  rw [show ({ Key := k, Bucket := JObj.get (c4Req1 b) "Bucket" } : Entry)
      = c4Entry k b from rfl]
  rw [process_eq_push ((c4M1 g b u).stream) (c4State g b) (c4Entry k b)
    (by rw [show ((c4M1 g b u).stream).hasProcessed (c4Entry k b) = false from rfl,
          Bool.and_false])
    hk rfl rfl]
  rfl

theorem c4_step3_unique (g : CompiledGlob) (b k : String) :
    (Machine.step (c4M2 g b k true)
        (Event.response (Except.ok (c4Page2 k)))).outputs
      = [Output.entry (c4Entry k b), Output.eos] := by
  rw [step_response _ _ rfl,
    handleResponse_ok (c4M2 g b k true) { size := 2, request := c4Req2 b }
      (c4Page2 k) { c4State g b with marker := some "mk" } rfl rfl]
  unfold processPage
  rw [show (c4Page2 k).Contents = [{ Key := k }] from rfl]
  simp only [List.foldl_cons, List.foldl_nil]
  unfold pageStep
  dsimp only
  rw [show ({ Key := k, Bucket := JObj.get (c4Req2 b) "Bucket" } : Entry)
      = c4Entry k b from rfl]
  rw [process_eq_skip ((c4M2 g b k true).stream)
    { c4State g b with marker := some "mk" } (c4Entry k b) (by
      show (true && [key (c4Entry k b)].contains (key (c4Entry k b))) = true
      simp)]
  rfl

theorem c4_step3_dup (g : CompiledGlob) (b k : String) (hk : g.mtch k = true) :
    (Machine.step (c4M2 g b k false)
        (Event.response (Except.ok (c4Page2 k)))).outputs
      = [Output.entry (c4Entry k b), Output.entry (c4Entry k b), Output.eos] := by
  rw [step_response _ _ rfl,
    handleResponse_ok (c4M2 g b k false) { size := 2, request := c4Req2 b }
      (c4Page2 k) { c4State g b with marker := some "mk" } rfl rfl]
  unfold processPage
  rw [show (c4Page2 k).Contents = [{ Key := k }] from rfl]
  simp only [List.foldl_cons, List.foldl_nil]
  unfold pageStep
  dsimp only
  rw [show ({ Key := k, Bucket := JObj.get (c4Req2 b) "Bucket" } : Entry)
      = c4Entry k b from rfl]
  rw [process_eq_push ((c4M2 g b k false).stream)
    { c4State g b with marker := some "mk" } (c4Entry k b)
    (by show (false && [key (c4Entry k b)].contains (key (c4Entry k b))) = false
        rfl)
    hk rfl rfl]
  rfl

/-- C4: a single `(containerId, key)` identity pair delivered once on each of
two pages is yielded exactly once when `unique = true` and twice when
`unique = false` (followed by the end-of-stream signal in either case). -/
theorem c4_dedup (g : CompiledGlob) (b k : String) (hk : g.mtch k = true) :
    (Machine.run (Machine.start (c4Stream g b true)) (c4Events k)).outputs
        = [Output.entry (c4Entry k b), Output.eos]
    ∧ (Machine.run (Machine.start (c4Stream g b false)) (c4Events k)).outputs
        = [Output.entry (c4Entry k b), Output.entry (c4Entry k b), Output.eos] := by
  constructor
  · show (Machine.step (Machine.step (Machine.step (Machine.start (c4Stream g b true))
      (Event.pull 3)) (Event.response (Except.ok (c4Page1 k))))
      (Event.response (Except.ok (c4Page2 k)))).outputs = _
    rw [c4_step1, c4_step2 g b k true hk, c4_step3_unique]
  · show (Machine.step (Machine.step (Machine.step (Machine.start (c4Stream g b false))
      (Event.pull 3)) (Event.response (Except.ok (c4Page1 k))))
      (Event.response (Except.ok (c4Page2 k)))).outputs = _
    rw [c4_step1, c4_step2 g b k false hk, c4_step3_dup g b k hk]

/-- Witness for C4 at a concrete pair and glob. -/
theorem c4_dedup_witness :
    let g : CompiledGlob :=
      { negate := false, set := [[Segment.wild]], bodyMatch := fun _ => true }
    (Machine.run (Machine.start (c4Stream g "t" true)) (c4Events "x")).outputs
        = [Output.entry (c4Entry "x" "t"), Output.eos]
    ∧ (Machine.run (Machine.start (c4Stream g "t" false)) (c4Events "x")).outputs
        = [Output.entry (c4Entry "x" "t"), Output.entry (c4Entry "x" "t"),
           Output.eos] := by
  intro g
  exact c4_dedup g "t" "x" rfl

/-! ## C9: what the dedup index actually records -/

theorem process_processed_sub (st : Stream) (search : ScanState) (e : Entry)
    (kk : String) (h : kk ∈ (Stream.process st search e).1.processed) :
    kk ∈ st.processed ∨ kk = key e := by
  unfold Stream.process at h
  cases hd : (st.unique && st.hasProcessed e)
  · rw [hd] at h
    simp only [Bool.false_eq_true, if_false] at h
    dsimp only at h
    split at h
    · split at h
      · rcases List.mem_cons.mp h with h1 | h1
        · exact Or.inr h1
        · exact Or.inl h1
      · split at h
        · rcases List.mem_cons.mp h with h1 | h1
          · exact Or.inr h1
          · exact Or.inl h1
        · rcases List.mem_cons.mp h with h1 | h1
          · exact Or.inr h1
          · exact Or.inl h1
    · rcases List.mem_cons.mp h with h1 | h1
      · exact Or.inr h1
      · exact Or.inl h1
  · rw [hd] at h
    exact Or.inl h

theorem foldl_pageStep_processed (request : JObj) (state : ScanState)
    (l : List Entry) (acc : Stream × List Output × List JVal) (kk : String)
    (h : kk ∈ (l.foldl (pageStep request state) acc).1.processed) :
    kk ∈ acc.1.processed
    ∨ ∃ e ∈ l, kk = propToStr (JObj.get request "Bucket") ++ "/" ++ e.Key := by
  induction l generalizing acc with
  | nil => exact Or.inl h
  | cons e rest ih =>
    rw [List.foldl_cons] at h
    rcases ih _ h with h1 | h1
    · rcases process_processed_sub acc.1 state
        { e with Bucket := JObj.get request "Bucket" } kk h1 with h2 | h2
      · exact Or.inl h2
      · exact Or.inr ⟨e, List.mem_cons_self e rest, by rw [h2]; rfl⟩
    · obtain ⟨e2, he2, hk2⟩ := h1
      exact Or.inr ⟨e2, List.mem_cons_of_mem e he2, hk2⟩

theorem readStep_processed (m : Machine) (size : Int) :
    (readStep m size).stream.processed = m.stream.processed := by
  unfold readStep
  repeat' split
  all_goals rfl

theorem advanceAndContinue_processed (m : Machine) (size : Int)
    (res : ListResult) :
    (advanceAndContinue m size res).stream.processed = m.stream.processed := by
  unfold advanceAndContinue
  cases ht : res.IsTruncated
  · simp only [Bool.false_eq_true, if_false]
    exact readStep_processed _ _
  · simp only [if_true]
    cases hnm : nextMarkerTruthy res.NextMarker with
    | some t => exact readStep_processed _ _
    | none =>
      cases hle : res.Contents.getLast? with
      | none => rfl
      | some lastE => exact readStep_processed _ _

/-- The identity key `kk` is the key of some entry delivered by a successful
listing response somewhere in the stimulus sequence. -/
def KeyFromTrace (evs : List Event) (kk : String) : Prop :=
  ∃ res : ListResult, Event.response (Except.ok res) ∈ evs
    ∧ ∃ e ∈ res.Contents, ∃ bkt : Option JVal,
        kk = propToStr bkt ++ "/" ++ e.Key

theorem step_processed_from (m : Machine) (ev : Event) (kk : String)
    (h : kk ∈ (Machine.step m ev).stream.processed) :
    kk ∈ m.stream.processed
    ∨ ∃ res : ListResult, ev = Event.response (Except.ok res)
        ∧ ∃ e ∈ res.Contents, ∃ bkt : Option JVal,
            kk = propToStr bkt ++ "/" ++ e.Key := by
  cases hc : m.crashed
  · cases ev with
    | pull size =>
      rw [step_pull m size hc, readStep_processed] at h
      exact Or.inl h
    | response r =>
      rw [step_response m r hc] at h
      cases hp : m.pending with
      | none =>
        rw [handleResponse_no_pending m r hp] at h
        exact Or.inl h
      | some p =>
        cases r with
        | error e =>
          rw [handleResponse_error m p e hp] at h
          exact Or.inl h
        | ok result =>
          cases hl : m.stream.states.getLast? with
          | none =>
            rw [handleResponse_ok_no_state m p result hp hl] at h
            exact Or.inl h
          | some state =>
            rw [handleResponse_ok m p result state hp hl,
              advanceAndContinue_processed] at h
            rcases foldl_pageStep_processed p.request state result.Contents
              _ kk h with h1 | h1
            · exact Or.inl h1
            · obtain ⟨e, he, hk⟩ := h1
              exact Or.inr ⟨result, rfl, e, he,
                JObj.get p.request "Bucket", hk⟩
  · rw [show Machine.step m ev = m from by unfold Machine.step; rw [hc]; rfl] at h
    exact Or.inl h

theorem run_processed_from (m : Machine) (evs : List Event) (kk : String)
    (h : kk ∈ (Machine.run m evs).stream.processed) :
    kk ∈ m.stream.processed ∨ KeyFromTrace evs kk := by
  induction evs generalizing m with
  | nil => exact Or.inl h
  | cons ev rest ih =>
    rcases ih (Machine.step m ev) h with h1 | h1
    · rcases step_processed_from m ev kk h1 with h2 | h2
      · exact Or.inl h2
      · obtain ⟨res, hres, hrest⟩ := h2
        exact Or.inr ⟨res, by rw [hres]; exact List.mem_cons_self _ _, hrest⟩
    · obtain ⟨res, hres, hrest⟩ := h1
      exact Or.inr ⟨res, List.mem_cons_of_mem ev hres, hrest⟩

/-- C9 (amended): with deduplication enabled, whenever `process` skips an
entry because its identity key is already in the dedup index, an entry with
that identity key was already *delivered and processed* from an earlier
listing response — but not necessarily emitted to the consumer, since the
index records every processed entry whether or not it matched. -/
theorem c9_skip_means_seen (st : Stream) (evs : List Event) (e : Entry)
    (search : ScanState) (hstart : st.processed = [])
    (hu : (Machine.run (Machine.start st) evs).stream.unique = true)
    (hskip : Stream.hasProcessed (Machine.run (Machine.start st) evs).stream e
      = true) :
    (Stream.process (Machine.run (Machine.start st) evs).stream search e).2.1
        = []
    ∧ KeyFromTrace evs (key e) := by
  constructor
  · exact congrArg (fun r => r.2.1)
      (process_eq_skip _ search e (by rw [hu, hskip]; rfl))
  · have hmem : key e ∈ (Machine.run (Machine.start st) evs).stream.processed :=
      List.mem_of_elem_eq_true hskip
    rcases run_processed_from _ evs (key e) hmem with h1 | h1
    · rw [show (Machine.start st).stream.processed = st.processed from rfl,
        hstart] at h1
      exact absurd h1 (List.not_mem_nil _)
    · exact h1

/-- Counterexample to C9 as stated: states are drained in LIFO order, so the
non-matching scope sees the entry first and records its identity key without
emitting anything; the matching scope's later occurrence is then skipped by
the dedup index, and the run emits no entry at all — the skip suppressed an
entry that had never been emitted. -/
theorem c9_counterexample :
    let gAll : CompiledGlob :=
      { negate := false, set := [[Segment.wild]], bodyMatch := fun _ => true }
    let gNone : CompiledGlob :=
      { negate := false, set := [[Segment.wild]], bodyMatch := fun _ => false }
    let sMatch : ScanState :=
      { mtch := gAll, awsOptions := [("Bucket", JVal.str "t")], pfx := "",
        marker := none }
    let sNoMatch : ScanState :=
      { mtch := gNone, awsOptions := [("Bucket", JVal.str "t")], pfx := "",
        marker := none }
    let st : Stream :=
      { filters := [], states := [sMatch, sNoMatch], processed := [],
        unique := true, format := "object" }
    let page : ListResult :=
      { Contents := [{ Key := "K" }], IsTruncated := false, NextMarker := none }
    let evs : List Event := [Event.pull 3, Event.response (Except.ok page),
      Event.response (Except.ok page)]
    let mfin := Machine.run (Machine.start st) evs
    let eK : Entry := { Key := "K", Bucket := some (JVal.str "t") }
    mfin.stream.unique = true
    ∧ Stream.hasProcessed mfin.stream eK = true
    ∧ (Stream.process mfin.stream sMatch eK).2.1 = []
    ∧ (Stream.process { mfin.stream with processed := [] } sMatch eK).2.1
        = [Output.entry eK]
    ∧ mfin.outputs = [Output.eos] :=
  ⟨rfl, rfl, rfl, rfl, rfl⟩

/-- Witness for the amended C9 on the same concrete run. -/
theorem c9_skip_means_seen_witness :
    let gAll : CompiledGlob :=
      { negate := false, set := [[Segment.wild]], bodyMatch := fun _ => true }
    let gNone : CompiledGlob :=
      { negate := false, set := [[Segment.wild]], bodyMatch := fun _ => false }
    let sMatch : ScanState :=
      { mtch := gAll, awsOptions := [("Bucket", JVal.str "t")], pfx := "",
        marker := none }
    let sNoMatch : ScanState :=
      { mtch := gNone, awsOptions := [("Bucket", JVal.str "t")], pfx := "",
        marker := none }
    let st : Stream :=
      { filters := [], states := [sMatch, sNoMatch], processed := [],
        unique := true, format := "object" }
    let page : ListResult :=
      { Contents := [{ Key := "K" }], IsTruncated := false, NextMarker := none }
    let evs : List Event := [Event.pull 3, Event.response (Except.ok page),
      Event.response (Except.ok page)]
    let eK : Entry := { Key := "K", Bucket := some (JVal.str "t") }
    (Stream.process (Machine.run (Machine.start st) evs).stream sMatch eK).2.1
        = []
    ∧ KeyFromTrace evs (key eK) := by
  intro gAll gNone sMatch sNoMatch st page evs eK
  exact c9_skip_means_seen st evs eK sMatch rfl rfl rfl

/-! ## C6: constructor validation -/

theorem mapM_ok_forall {a b : Type} (f : a → Except String b) :
    ∀ (l : List a) (os : List b), l.mapM f = Except.ok os →
      ∀ x ∈ l, ∃ o, f x = Except.ok o := by
  intro l
  induction l with
  | nil =>
    intro os h x hx
    cases hx
  | cons hd rest ih =>
    intro os h x hx
    rw [List.mapM_cons] at h
    cases hfa : f hd with
    | error e =>
      rw [hfa] at h
      exact Except.noConfusion (show Except.error e = Except.ok os from h)
    | ok o =>
      rw [hfa] at h
      cases hrest : rest.mapM f with
      | error e =>
        rw [hrest] at h
        exact Except.noConfusion (show Except.error e = Except.ok os from h)
      | ok os2 =>
        rcases List.mem_cons.mp hx with rfl | hx2
        · exact ⟨o, hfa⟩
        · exact ih os2 hrest x hx2

theorem mapM_ok_of_forall {a b : Type} (f : a → Except String b)
    (P : b → Prop) (l : List a)
    (h : ∀ x ∈ l, ∃ o, f x = Except.ok o ∧ P o) :
    ∃ os, l.mapM f = Except.ok os ∧ os.length = l.length ∧ ∀ o ∈ os, P o := by
  induction l with
  | nil => exact ⟨[], rfl, rfl, fun o ho => absurd ho (List.not_mem_nil o)⟩
  | cons hd rest ih =>
    obtain ⟨o, ho, hP⟩ := h hd (List.mem_cons_self hd rest)
    obtain ⟨os, hos, hlen, hPs⟩ :=
      ih (fun x hx => h x (List.mem_cons_of_mem hd hx))
    refine ⟨o :: os, ?_, by simp [hlen], ?_⟩
    · rw [List.mapM_cons, ho, hos]
      rfl
    · intro o2 ho2
      rcases List.mem_cons.mp ho2 with rfl | h2
      · exact hP
      · exact hPs o2 h2

theorem mkStreamCore_mapM_ok (ctx : Ctx) (opts : GlobOptions)
    (gs : List GlobInput) (searchOpts : List JObj)
    (hm : (List.filter (fun g => !isFilter g) gs).mapM
        (normalizeGlob ctx opts.awsOptions) = Except.ok searchOpts) :
    mkStreamCore ctx opts gs =
      mkStreamStates ctx opts
        (List.map (fun g => ctx.compile (filterText g)) (List.filter isFilter gs))
        searchOpts := by
  unfold mkStreamCore
  rw [hm]

theorem mkStreamCore_mapM_error (ctx : Ctx) (opts : GlobOptions)
    (gs : List GlobInput) (e : String)
    (hm : (List.filter (fun g => !isFilter g) gs).mapM
        (normalizeGlob ctx opts.awsOptions) = Except.error e) :
    mkStreamCore ctx opts gs = Except.error e := by
  unfold mkStreamCore
  rw [hm]

theorem mkStream_checks_ok (ctx : Ctx) (gs : List GlobInput)
    (opts : GlobOptions) (hs3 : opts.s3HasListObjects = true)
    (hfmt : opts.format ∈ formats) :
    mkStream ctx (GlobsArg.list gs) opts = mkStreamCore ctx opts gs := by
  unfold mkStream
  rw [if_neg (by rw [hs3]; decide),
    if_neg (by
      rw [show formats.contains opts.format = List.elem opts.format formats
          from rfl, List.elem_eq_true_of_mem hfmt]
      decide)]
  rfl

/-- Construction failed: no stream value is produced. -/
def constructionFails (r : Except String Stream) : Prop :=
  ∀ stm : Stream, r ≠ Except.ok stm

theorem mkStream_fails_of_bad_checks (ctx : Ctx) (globs : GlobsArg)
    (opts : GlobOptions)
    (h : opts.s3HasListObjects = false ∨ opts.format ∉ formats) :
    constructionFails (mkStream ctx globs opts) := by
  intro stm hok
  unfold mkStream at hok
  rcases h with h1 | h1
  · rw [if_pos (by rw [h1]; rfl)] at hok
    exact Except.noConfusion hok
  · have hc : formats.contains opts.format = false := by
      cases hcc : formats.contains opts.format
      · rfl
      · exact absurd (List.mem_of_elem_eq_true hcc) h1
    by_cases h2 : (!opts.s3HasListObjects) = true
    · rw [if_pos h2] at hok
      exact Except.noConfusion hok
    · rw [if_neg h2, if_pos (by rw [hc]; rfl)] at hok
      exact Except.noConfusion hok

theorem mkStream_invalid_fails (ctx : Ctx) (opts : GlobOptions) :
    constructionFails (mkStream ctx GlobsArg.invalid opts) := by
  intro stm hok
  unfold mkStream at hok
  by_cases h1 : (!opts.s3HasListObjects) = true
  · rw [if_pos h1] at hok
    exact Except.noConfusion hok
  · rw [if_neg h1] at hok
    by_cases h2 : (!(formats.contains opts.format)) = true
    · rw [if_pos h2] at hok
      exact Except.noConfusion hok
    · rw [if_neg h2] at hok
      exact Except.noConfusion
        (show (Except.error "TypeError" : Except String Stream)
            = Except.ok stm from hok)

theorem mkStream_empty_fails (ctx : Ctx) (opts : GlobOptions) :
    constructionFails (mkStream ctx (GlobsArg.list []) opts) := by
  intro stm hok
  unfold mkStream at hok
  by_cases h1 : (!opts.s3HasListObjects) = true
  · rw [if_pos h1] at hok
    exact Except.noConfusion hok
  · rw [if_neg h1] at hok
    by_cases h2 : (!(formats.contains opts.format)) = true
    · rw [if_pos h2] at hok
      exact Except.noConfusion hok
    · rw [if_neg h2] at hok
      exact Except.noConfusion
        (show (Except.error "Must have at least 1 non-negative glob."
            : Except String Stream) = Except.ok stm from hok)

theorem mkStream_all_filters_fails (ctx : Ctx) (opts : GlobOptions)
    (gs : List GlobInput) (hall : ∀ g ∈ gs, isFilter g = true) :
    constructionFails (mkStream ctx (GlobsArg.list gs) opts) := by
  intro stm hok
  by_cases h1 : opts.s3HasListObjects = true
  case neg =>
    exact mkStream_fails_of_bad_checks ctx _ opts
      (Or.inl (Bool.eq_false_iff.mpr h1)) stm hok
  by_cases h2 : opts.format ∈ formats
  case neg =>
    exact mkStream_fails_of_bad_checks ctx _ opts (Or.inr h2) stm hok
  rw [mkStream_checks_ok ctx gs opts h1 h2] at hok
  have hsp : List.filter (fun g => !isFilter g) gs = [] := by
    rw [List.filter_eq_nil_iff]
    intro g hg
    simp [hall g hg]
  unfold mkStreamCore at hok
  rw [hsp] at hok
  exact Except.noConfusion
    (show (Except.error "Must have at least 1 non-negative glob."
        : Except String Stream) = Except.ok stm from hok)

theorem mkStream_bad_search_fails (ctx : Ctx) (opts : GlobOptions)
    (gs : List GlobInput) (g : GlobInput) (hg : g ∈ gs)
    (hgf : isFilter g = false)
    (hbad :
      isEmptyProp (JObj.get (resolveGlob ctx opts.awsOptions g) "Key") = true
      ∨ isEmptyProp (JObj.get (resolveGlob ctx opts.awsOptions g) "Bucket")
          = true) :
    constructionFails (mkStream ctx (GlobsArg.list gs) opts) := by
  intro stm hok
  by_cases h1 : opts.s3HasListObjects = true
  case neg =>
    exact mkStream_fails_of_bad_checks ctx _ opts
      (Or.inl (Bool.eq_false_iff.mpr h1)) stm hok
  by_cases h2 : opts.format ∈ formats
  case neg =>
    exact mkStream_fails_of_bad_checks ctx _ opts (Or.inr h2) stm hok
  rw [mkStream_checks_ok ctx gs opts h1 h2] at hok
  have hng : ∀ o, normalizeGlob ctx opts.awsOptions g ≠ Except.ok o := by
    intro o ho
    unfold normalizeGlob at ho
    dsimp only at ho
    rcases hbad with hb | hb
    · rw [if_pos hb] at ho
      exact Except.noConfusion ho
    · by_cases hk : isEmptyProp
          (JObj.get (resolveGlob ctx opts.awsOptions g) "Key") = true
      · rw [if_pos hk] at ho
        exact Except.noConfusion ho
      · rw [if_neg hk, if_pos hb] at ho
        exact Except.noConfusion ho
  cases hmm : (List.filter (fun g => !isFilter g) gs).mapM
      (normalizeGlob ctx opts.awsOptions) with
  | ok os =>
    obtain ⟨o, ho⟩ := mapM_ok_forall (normalizeGlob ctx opts.awsOptions)
      (List.filter (fun g => !isFilter g) gs) os hmm g
      (List.mem_filter.mpr ⟨hg, by rw [hgf]; rfl⟩)
    exact hng o ho
  | error e =>
    rw [mkStreamCore_mapM_error ctx opts gs e hmm] at hok
    exact Except.noConfusion hok

theorem mkStream_succeeds (ctx : Ctx) (opts : GlobOptions)
    (gs : List GlobInput) (g0 : GlobInput)
    (hs3 : opts.s3HasListObjects = true) (hfmt : opts.format ∈ formats)
    (hg0 : g0 ∈ gs) (hg0f : isFilter g0 = false)
    (hres : ∀ g ∈ gs, isFilter g = false →
      isEmptyProp (JObj.get (resolveGlob ctx opts.awsOptions g) "Key") = false
      ∧ isEmptyProp (JObj.get (resolveGlob ctx opts.awsOptions g) "Bucket")
          = false
      ∧ (ctx.compile (propToStr
          (JObj.get (resolveGlob ctx opts.awsOptions g) "Key"))).set ≠ []) :
    ∃ stm, mkStream ctx (GlobsArg.list gs) opts = Except.ok stm
      ∧ stm.states ≠ [] := by
  rw [mkStream_checks_ok ctx gs opts hs3 hfmt]
  have hmapM := mapM_ok_of_forall (normalizeGlob ctx opts.awsOptions)
    (fun o => (ctx.compile (propToStr (JObj.get o "Key"))).set ≠ [])
    (List.filter (fun g => !isFilter g) gs) (by
      intro g hgmem
      have hgm := List.mem_filter.mp hgmem
      have hgf : isFilter g = false := by
        cases hif : isFilter g
        · rfl
        · have h2 := hgm.2
          rw [hif] at h2
          exact absurd h2 (by decide)
      obtain ⟨hK, hB, hset⟩ := hres g hgm.1 hgf
      refine ⟨resolveGlob ctx opts.awsOptions g, ?_, ?_⟩
      · unfold normalizeGlob
        dsimp only
        rw [if_neg (by rw [hK]; decide), if_neg (by rw [hB]; decide)]
      · exact hset)
  obtain ⟨searchOpts, hos, hlen, hP⟩ := hmapM
  rw [mkStreamCore_mapM_ok ctx opts gs searchOpts hos]
  have hsp_ne : List.filter (fun g => !isFilter g) gs ≠ [] := by
    intro hnil
    have hmem : g0 ∈ List.filter (fun g => !isFilter g) gs :=
      List.mem_filter.mpr ⟨hg0, by rw [hg0f]; rfl⟩
    rw [hnil] at hmem
    exact absurd hmem (List.not_mem_nil g0)
  have hso_ne : searchOpts ≠ [] := by
    intro hnil
    rw [hnil] at hlen
    exact hsp_ne (List.length_eq_zero.mp hlen.symm)
  obtain ⟨o0, ho0⟩ := List.exists_mem_of_ne_nil searchOpts hso_ne
  have hset0 := hP o0 ho0
  have hpre : globPrefixes (ctx.compile (propToStr (JObj.get o0 "Key"))) ≠ [] := by
    intro hnil
    unfold globPrefixes at hnil
    exact hset0 (List.map_eq_nil_iff.mp hnil)
  obtain ⟨p0, hp0⟩ := List.exists_mem_of_ne_nil _ hpre
  have hstate : ScanState.mk (ctx.compile (propToStr (JObj.get o0 "Key")))
      o0 p0 none ∈ buildStates ctx searchOpts := by
    unfold buildStates
    rw [List.mem_flatMap]
    exact ⟨o0, ho0, List.mem_map.mpr ⟨p0, hp0, rfl⟩⟩
  have hstates_ne : buildStates ctx searchOpts ≠ [] := by
    intro hnil
    rw [hnil] at hstate
    exact absurd hstate (List.not_mem_nil _)
  unfold mkStreamStates
  dsimp only
  rw [if_neg (fun h0 => hstates_ne (List.length_eq_zero.mp h0))]
  exact ⟨_, rfl, hstates_ne⟩

/-- C6: construction fails (no stream is produced) for an empty pattern
list, an all-negations pattern list, a non-sequence/non-string/non-object
`globs` argument, a search pattern whose resolved `Key` or `Bucket` is empty
after merging the defaults, and an unrecognized `format`; and for every
pattern list containing at least one non-negated pattern in which every
search pattern resolves to a non-empty `Key` and `Bucket` (with the engine
giving its compiled glob at least one branch), construction succeeds and the
scan-state collection is non-empty. -/
theorem c6_constructor_validation (ctx : Ctx) (opts : GlobOptions) :
    constructionFails (mkStream ctx (GlobsArg.list []) opts)
    ∧ (∀ gs, (∀ g ∈ gs, isFilter g = true) →
        constructionFails (mkStream ctx (GlobsArg.list gs) opts))
    ∧ constructionFails (mkStream ctx GlobsArg.invalid opts)
    ∧ (∀ gs g, g ∈ gs → isFilter g = false →
        (isEmptyProp (JObj.get (resolveGlob ctx opts.awsOptions g) "Key") = true
         ∨ isEmptyProp (JObj.get (resolveGlob ctx opts.awsOptions g) "Bucket")
             = true) →
        constructionFails (mkStream ctx (GlobsArg.list gs) opts))
    ∧ (opts.format ∉ formats →
        ∀ globs, constructionFails (mkStream ctx globs opts))
    ∧ (∀ gs g0, opts.s3HasListObjects = true → opts.format ∈ formats →
        g0 ∈ gs → isFilter g0 = false →
        (∀ g ∈ gs, isFilter g = false →
          isEmptyProp (JObj.get (resolveGlob ctx opts.awsOptions g) "Key")
              = false
          ∧ isEmptyProp (JObj.get (resolveGlob ctx opts.awsOptions g) "Bucket")
              = false
          ∧ (ctx.compile (propToStr
              (JObj.get (resolveGlob ctx opts.awsOptions g) "Key"))).set ≠ []) →
        ∃ stm, mkStream ctx (GlobsArg.list gs) opts = Except.ok stm
          ∧ stm.states ≠ []) := by
  refine ⟨mkStream_empty_fails ctx opts,
    fun gs hall => mkStream_all_filters_fails ctx opts gs hall,
    mkStream_invalid_fails ctx opts,
    fun gs g hg hgf hbad => mkStream_bad_search_fails ctx opts gs g hg hgf hbad,
    fun hfmt globs => mkStream_fails_of_bad_checks ctx globs opts (Or.inr hfmt),
    fun gs g0 hs3 hfmt hg0 hg0f hres =>
      mkStream_succeeds ctx opts gs g0 hs3 hfmt hg0 hg0f hres⟩

/-- A concrete engine for the C6 witness: minimatch negates `!`-patterns and
always produces one branch; the URL parser resolves to bucket `t`, key `*`. -/
def c6Ctx : Ctx :=
  { compile := fun s =>
      { negate := s.startsWith "!", set := [[Segment.wild]],
        bodyMatch := fun _ => false },
    urlToOptions := fun _ => [("Bucket", JVal.str "t"), ("Key", JVal.str "*")] }

/-- Witness for C6: the empty list fails and a single URL pattern succeeds
with a non-empty scan-state collection. -/
theorem c6_constructor_validation_witness :
    constructionFails (mkStream c6Ctx (GlobsArg.list []) { })
    ∧ ∃ stm, mkStream c6Ctx (GlobsArg.list [GlobInput.str "s3://t/*"]) { }
        = Except.ok stm ∧ stm.states ≠ [] := by
  constructor
  · exact (c6_constructor_validation c6Ctx { }).1
  · refine (c6_constructor_validation c6Ctx { }).2.2.2.2.2
      [GlobInput.str "s3://t/*"] (GlobInput.str "s3://t/*") rfl
      (by decide) (List.mem_singleton.mpr rfl) (by decide) ?_
    intro g hg hgf
    rw [List.mem_singleton.mp hg]
    exact ⟨rfl, rfl, by decide⟩

end S3Glob
